import Mathlib

/-!
Shallow embedding of the CScreenkey program (src/CScreenkey.cpp).

The program keeps a sorted set of display-name strings for the inputs
currently held (a std set of std string), a read-only special-key map
(a std map from int codes to strings), and after every mutation derives
a combination string from the set and hands its uppercased form to the
terminal renderer.

Modelling conventions:
- The active set is a Finset String; std set insertion and erasure are
  Finset.insert and Finset.erase (duplicate insert and absent erase are
  no-ops in both).
- std set iterates its strings in ascending lexicographic order, which is
  the order produced by Finset.sort with the order on String.
- The std map built by initializeKeyMappings is an association list kept
  sorted by key, built by mapInsert which mirrors operator assignment
  into a std map.
- A render call is modelled by the Option String component returned by
  updateKeyCombination: some t means renderText is invoked with text t,
  none means no render call happens.
- The X11 native name facility XKeysymToString is a parameter of type
  Nat to Option String; none models a NULL return.  Assigning that NULL
  pointer to a std string is undefined behaviour in the C++ source, so
  the handlers return none (no well-defined result) in that case.
- C integer division truncates toward zero, which is Int.tdiv.
-/

/-- One assignment into a std map held as a key-sorted association list:
insert the pair at its ordered position, overwriting an equal key. -/
def mapInsert (k : Nat) (v : String) : List (Nat × String) → List (Nat × String)
  | [] => [(k, v)]
  | (k2, v2) :: rest =>
    if k < k2 then (k, v) :: (k2, v2) :: rest
    else if k = k2 then (k, v) :: rest
    else (k2, v2) :: mapInsert k v rest

/-- The nine assignments performed by initializeKeyMappings, in source
order: XK Page Up (0xff55), XK Page Down (0xff56), XK Home (0xff50),
XK End (0xff57), then the mouse pseudo-codes 1..5. -/
def initializeKeyMappings : List (Nat × String) :=
  mapInsert 5 "MOUSE SCROLL DOWN" (mapInsert 4 "MOUSE SCROLL UP"
    (mapInsert 3 "MOUSE RIGHT CLICK" (mapInsert 2 "MOUSE MIDDLE CLICK"
    (mapInsert 1 "MOUSE LEFT CLICK" (mapInsert 0xff57 "END"
    (mapInsert 0xff50 "HOME" (mapInsert 0xff56 "PAGE DOWN"
    (mapInsert 0xff55 "PAGE UP" []))))))))

/-- The global specialKeyMap after startup: read-only in the embedding,
matching the guarded uses in the source (operator access only after a
count check, so no later mutation occurs). -/
def specialKeyMap : List (Nat × String) := initializeKeyMappings

/-- The per-character uppercase loop of showPressedKey: std toupper is
applied to every character and the results are appended in order.  For
the character range the program produces, std toupper agrees with
Char.toUpper (basic latin letters are uppercased, all else unchanged). -/
def uppercaseOf (s : String) : String := String.mk (s.data.map Char.toUpper)

/-- showPressedKey builds the uppercase copy of the combination and hands
it to renderText; the value returned here is the text delivered. -/
def showPressedKey (combination : String) : String := uppercaseOf combination

/-- One iteration of the combination-building loop in
updateKeyCombination: append a separator when the accumulator is
non-empty, then append the key. -/
def combStep (combination key : String) : String :=
  (if combination = "" then combination else combination ++ " + ") ++ key

/-- The combination string built by updateKeyCombination: fold combStep
over the active keys in the iteration order of std set, which is
ascending lexicographic order. -/
def combinationOf (keys : Finset String) : String :=
  (keys.sort (· ≤ ·)).foldl combStep ""

/-- updateKeyCombination: when the active set is non-empty, build the
combination and call showPressedKey (a render); when it is empty, no
render call is made.  The result is the text delivered to renderText,
or none when no render happens. -/
def updateKeyCombination (keys : Finset String) : Option String :=
  if keys = ∅ then none else some (showPressedKey (combinationOf keys))

/-- addSpecialKey: insert into the active set, then run
updateKeyCombination.  Returns the new set and the delivered text. -/
def addSpecialKey (keyStr : String) (keys : Finset String) :
    Finset String × Option String :=
  (insert keyStr keys, updateKeyCombination (insert keyStr keys))

/-- removeSpecialKey: erase from the active set, then run
updateKeyCombination.  Returns the new set and the delivered text. -/
def removeSpecialKey (keyStr : String) (keys : Finset String) :
    Finset String × Option String :=
  (keys.erase keyStr, updateKeyCombination (keys.erase keyStr))

/-- Key resolution in handleLinuxKeyPress and handleLinuxKeyRelease:
the special map is consulted first, otherwise XKeysymToString (the
native parameter); none models a NULL return from the native call. -/
def resolveLinuxKey (native : Nat → Option String) (keysym : Nat) :
    Option String :=
  match specialKeyMap.lookup keysym with
  | some s => some s
  | none => native keysym

/-- handleLinuxKeyPress.  Result none models the undefined behaviour of
assigning a NULL char pointer returned by XKeysymToString to a
std string; otherwise the guarded branch runs: a non-empty name is
inserted (with a render), an empty name is a no-op. -/
def handleLinuxKeyPress (native : Nat → Option String) (keysym : Nat)
    (keys : Finset String) : Option (Finset String × Option String) :=
  match resolveLinuxKey native keysym with
  | none => none
  | some keyStr =>
    some (if keyStr = "" then (keys, none) else addSpecialKey keyStr keys)

/-- handleLinuxKeyRelease, with the same NULL modelling as the press
handler; a non-empty name is erased (with a render), an empty name is a
no-op. -/
def handleLinuxKeyRelease (native : Nat → Option String) (keysym : Nat)
    (keys : Finset String) : Option (Finset String × Option String) :=
  match resolveLinuxKey native keysym with
  | none => none
  | some keyStr =>
    some (if keyStr = "" then (keys, none) else removeSpecialKey keyStr keys)

/-- handleLinuxButtonPress: a mapped button uses its map entry, an
unmapped one the fixed placeholder, and the name is inserted. -/
def handleLinuxButtonPress (detail : Nat) (keys : Finset String) :
    Finset String × Option String :=
  let buttonStr :=
    match specialKeyMap.lookup detail with
    | some s => s
    | none => "Unknown Mouse Button"
  if buttonStr = "" then (keys, none) else addSpecialKey buttonStr keys

/-- handleLinuxButtonRelease: same name resolution as the press handler,
then the name is erased. -/
def handleLinuxButtonRelease (detail : Nat) (keys : Finset String) :
    Finset String × Option String :=
  let buttonStr :=
    match specialKeyMap.lookup detail with
    | some s => s
    | none => "Unknown Mouse Button"
  if buttonStr = "" then (keys, none) else removeSpecialKey buttonStr keys

/-- The mouse messages LowLevelMouseProc distinguishes; the wheel carries
the sign of its delta. -/
inductive WinMouseMsg where
  | lbuttondown
  | mbuttondown
  | rbuttondown
  | mousewheel (wheelDeltaPos : Bool)
  | lbuttonup
  | mbuttonup
  | rbuttonup
deriving DecidableEq

/-- The buttonStr variable of LowLevelMouseProc: assigned only for the
three button-down messages and the wheel; it stays the empty string for
every button-up message. -/
def mouseButtonString : WinMouseMsg → String
  | .lbuttondown => "MOUSE LEFT CLICK"
  | .mbuttondown => "MOUSE MIDDLE CLICK"
  | .rbuttondown => "MOUSE RIGHT CLICK"
  | .mousewheel wheelDeltaPos =>
      if wheelDeltaPos then "MOUSE SCROLL UP" else "MOUSE SCROLL DOWN"
  | _ => ""

/-- LowLevelMouseProc: insert buttonStr when it is non-empty, then on a
button-up message erase buttonStr (which is the empty string there). -/
def lowLevelMouseProc (msg : WinMouseMsg) (keys : Finset String) :
    Finset String :=
  let buttonStr := mouseButtonString msg
  let keys1 := if buttonStr = "" then keys else insert buttonStr keys
  if msg = WinMouseMsg.lbuttonup ∨ msg = WinMouseMsg.mbuttonup ∨
      msg = WinMouseMsg.rbuttonup then
    keys1.erase buttonStr
  else keys1

/-- The centering arithmetic of renderText: start row is half the
terminal height, start column is half of width minus text length, both
with C truncating integer division.  Returns (start row, start column). -/
def renderTextPos (termHeight termWidth : Int) (inputText : String) :
    Int × Int :=
  (Int.tdiv termHeight 2, Int.tdiv (termWidth - (inputText.length : Int)) 2)

/-- Observable control state of the startLinuxScreenKey while loop: at
the loop head (where the quit flag is read), blocked inside XNextEvent,
or returned from the loop. -/
inductive LoopState where
  | atLoopHead
  | inWait
  | returned
deriving DecidableEq

/-- One scheduler step of the while loop: at the loop head the quit flag
decides between returning and entering XNextEvent; a thread blocked in
XNextEvent advances only when an event arrives, since the wait has no
timeout and nothing in main tears the display connection down. -/
def loopStep (quit : Bool) (eventArrived : Bool) : LoopState → LoopState
  | .atLoopHead => if quit then .returned else .inWait
  | .inWait => if eventArrived then .atLoopHead else .inWait
  | .returned => .returned

/-- Run the event-thread loop over a schedule of time steps; each entry
of arrivals says whether an X event arrived during that step. -/
def loopRun (quit : Bool) (arrivals : List Bool) (s : LoopState) : LoopState :=
  arrivals.foldl (fun st a => loopStep quit a st) s

/-- Spec-side join (from the specification wording): the display names
joined by the separator in the given order. -/
def joinedBy (sep : String) : List String → String
  | [] => ""
  | [k] => k
  | k :: rest => k ++ sep ++ joinedBy sep rest

/-- The suffix of a combination string after its first element: each
further key is preceded by the separator. -/
def tailJoined : List String → String
  | [] => ""
  | k :: rest => " + " ++ k ++ tailJoined rest

/-- Concrete evaluation of Finset.sort: the sort of a finite set is the
unique sorted duplicate-free list carrying the same elements.  The
sortedness hypothesis is stated over the computable character-list
order so that concrete instances close by decide. -/
theorem finsetSortEq (s : Finset String) (l : List String)
    (h : s.val = (l : Multiset String))
    (hs : List.Sorted (fun a b : String => a.toList ≤ b.toList) l) :
    s.sort (· ≤ ·) = l := by
  refine List.eq_of_perm_of_sorted ?_ (Finset.sort_sorted _ s)
    (hs.imp fun hab => String.le_iff_toList_le.mpr hab)
  rw [← Multiset.coe_eq_coe, Finset.sort_eq, h]

/-- Helper: appending the separator and a key to a non-empty accumulator
keeps it non-empty. -/
theorem combStep_ne_empty (acc b : String) (h : acc ≠ "") :
    combStep acc b ≠ "" := by
  rw [combStep, if_neg h]
  intro hc
  have hd : ((acc ++ " + ") ++ b).data = "".data := congrArg String.data hc
  simp only [String.data_append] at hd
  have hd2 : (acc.data ++ " + ".data) ++ b.data = [] := hd
  rcases List.append_eq_nil.mp hd2 with ⟨h1, _⟩
  rcases List.append_eq_nil.mp h1 with ⟨_, h4⟩
  exact absurd h4 (by decide)

/-- Helper: folding the combination step over further keys from a
non-empty accumulator appends a separator before each key. -/
theorem foldl_combStep_acc (l : List String) :
    ∀ acc : String, acc ≠ "" → l.foldl combStep acc = acc ++ tailJoined l := by
  induction l with
  | nil =>
    intro acc _
    simp [tailJoined]
  | cons b t ih =>
    intro acc h
    rw [List.foldl_cons, ih (combStep acc b) (combStep_ne_empty acc b h)]
    simp only [combStep, if_neg h, tailJoined, String.append_assoc]

/-- Helper: the spec-side join of a non-empty list is its head followed
by the separator-prefixed tail. -/
theorem joinedBy_eq_tailJoined (a : String) (l : List String) :
    joinedBy " + " (a :: l) = a ++ tailJoined l := by
  induction l generalizing a with
  | nil => simp [joinedBy, tailJoined]
  | cons b t ih =>
    simp only [joinedBy]
    rw [ih b]
    simp only [tailJoined, String.append_assoc]

/-- Helper: uppercasing a basic latin character twice equals uppercasing
it once. -/
theorem charToUpper_idem (c : Char) : c.toUpper.toUpper = c.toUpper := by
  by_cases h : 97 ≤ c.toNat ∧ c.toNat ≤ 122
  · obtain ⟨h1, h2⟩ := h
    have e : c.toUpper = Char.ofNat (c.toNat - 32) := by
      simp only [Char.toUpper]
      rw [if_pos ⟨h1, h2⟩]
    rw [e]
    obtain ⟨n, hn⟩ : ∃ n, c.toNat = n := ⟨c.toNat, rfl⟩
    rw [hn] at h1 h2 ⊢
    interval_cases n <;> decide
  · have e : c.toUpper = c := by
      simp only [Char.toUpper]
      rw [if_neg]
      exact fun hc => h ⟨hc.1, hc.2⟩
    rw [e, e]

/-- Helper: the per-character uppercase loop is idempotent. -/
theorem uppercaseOf_idem (s : String) :
    uppercaseOf (uppercaseOf s) = uppercaseOf s := by
  show String.mk ((String.mk (s.data.map Char.toUpper)).data.map Char.toUpper) =
    String.mk (s.data.map Char.toUpper)
  rw [show (String.mk (s.data.map Char.toUpper)).data = s.data.map Char.toUpper from rfl,
    List.map_map,
    show Char.toUpper ∘ Char.toUpper = Char.toUpper from funext charToUpper_idem]

/-- C1 counterexample: releasing the last held key empties the set and
updateKeyCombination then delivers nothing at all to the renderer, not
the empty string the claim asserts. -/
theorem emptySet_no_delivery :
    (removeSpecialKey "A" ({"A"} : Finset String)).1 = ∅ ∧
    (removeSpecialKey "A" ({"A"} : Finset String)).2 = none ∧
    (removeSpecialKey "A" ({"A"} : Finset String)).2 ≠ some "" := by decide

/-- C1 amended: after every apply the combination is recomputed; a press
always delivers the rendered text, a release delivers it exactly when
the resulting set is non-empty and delivers nothing when the set became
empty; the combination string of the empty set is itself empty. -/
theorem apply_delivery_behaviour (keyStr : String) (keys : Finset String) :
    (addSpecialKey keyStr keys).2 =
      some (showPressedKey (combinationOf (insert keyStr keys))) ∧
    (removeSpecialKey keyStr keys).2 =
      (if keys.erase keyStr = ∅ then none
       else some (showPressedKey (combinationOf (keys.erase keyStr)))) ∧
    combinationOf (∅ : Finset String) = "" := by
  refine ⟨?_, rfl, ?_⟩
  · show updateKeyCombination (insert keyStr keys) = _
    rw [updateKeyCombination, if_neg (Finset.insert_ne_empty keyStr keys)]
  · rw [combinationOf, finsetSortEq ∅ [] (by decide) (by decide)]
    rfl

/-- C2: the code handles an empty resolved name as a no-op, but a failed
native resolution is a NULL char pointer that the source assigns to a
std string, which is undefined behaviour (modelled as result none), not
the safe no-op the claim requires.  Keysym 0 (NoSymbol) is outside the
special map and XKeysymToString returns NULL for it. -/
theorem linuxResolutionFailure_behaviour :
    specialKeyMap.lookup 0 = none ∧
    handleLinuxKeyPress (fun _ => none) 0 {"A"} = none ∧
    handleLinuxKeyRelease (fun _ => none) 0 {"A"} = none ∧
    handleLinuxKeyPress (fun _ => some "") 0 {"A"} = some ({"A"}, none) ∧
    handleLinuxKeyRelease (fun _ => some "") 0 {"A"} = some ({"A"}, none) := by
  decide

/-- C3: on the Windows mouse path buttonStr is assigned only for the
button-down and wheel messages, so a button-up erases the empty string
and the DisplayName inserted by the preceding button-down stays in the
active set, contrary to the claimed press and release symmetry. -/
theorem winMouse_up_leaves_button :
    "MOUSE LEFT CLICK" ∈
      lowLevelMouseProc WinMouseMsg.lbuttonup
        (lowLevelMouseProc WinMouseMsg.lbuttondown ∅) ∧
    lowLevelMouseProc WinMouseMsg.lbuttonup
        (lowLevelMouseProc WinMouseMsg.lbuttondown ∅) =
      {"MOUSE LEFT CLICK"} ∧
    "MOUSE MIDDLE CLICK" ∈
      lowLevelMouseProc WinMouseMsg.mbuttonup
        (lowLevelMouseProc WinMouseMsg.mbuttondown ∅) ∧
    "MOUSE RIGHT CLICK" ∈
      lowLevelMouseProc WinMouseMsg.rbuttonup
        (lowLevelMouseProc WinMouseMsg.rbuttondown ∅) := by decide

/-- C6: releasing a DisplayName that is not in the active set leaves the
set unchanged; erasing an absent element is a no-op. -/
theorem removeSpecialKey_absent_noop (keyStr : String) (keys : Finset String)
    (h : keyStr ∉ keys) : (removeSpecialKey keyStr keys).1 = keys :=
  Finset.erase_eq_of_not_mem h

/-- Witness for C6 at a concrete absent name. -/
theorem removeSpecialKey_absent_noop_witness :
    "CTRL" ∉ ({"SHIFT"} : Finset String) ∧
    (removeSpecialKey "CTRL" {"SHIFT"}).1 = {"SHIFT"} :=
  ⟨by decide, removeSpecialKey_absent_noop "CTRL" {"SHIFT"} (by decide)⟩

/-- C7 counterexample: a 20 character text on a 10 column terminal gives
start column -5, so the centering computation does go negative. -/
theorem renderTextPos_negative_column :
    (renderTextPos 24 10 "AAAAAAAAAAAAAAAAAAAA").2 = -5 ∧
    (renderTextPos 24 10 "AAAAAAAAAAAAAAAAAAAA").2 < 0 := by decide

/-- C7 amended: the start row is non-negative whenever the terminal
height is, and the start column is non-negative whenever the text is no
wider than the terminal; only a text wider than the terminal drives the
start column negative. -/
theorem renderTextPos_nonneg (termHeight termWidth : Int) (inputText : String)
    (hh : 0 ≤ termHeight) (hw : (inputText.length : Int) ≤ termWidth) :
    0 ≤ (renderTextPos termHeight termWidth inputText).1 ∧
    0 ≤ (renderTextPos termHeight termWidth inputText).2 :=
  ⟨Int.tdiv_nonneg hh (by omega), Int.tdiv_nonneg (by omega) (by omega)⟩

/-- Witness for C7 amended on a 24 by 80 terminal and a 5 column text. -/
theorem renderTextPos_nonneg_witness :
    (0 : Int) ≤ 24 ∧ (("HELLO".length : Int) ≤ 80) ∧
    0 ≤ (renderTextPos 24 80 "HELLO").1 ∧
    0 ≤ (renderTextPos 24 80 "HELLO").2 :=
  ⟨by decide, by decide,
   (renderTextPos_nonneg 24 80 "HELLO" (by decide) (by decide)).1,
   (renderTextPos_nonneg 24 80 "HELLO" (by decide) (by decide)).2⟩

/-- C8: with the quit flag already set while the event thread sits
blocked in XNextEvent, the thread stays blocked for any number of time
steps in which no event arrives, because the flag is only read at the
loop head and main never tears the display connection down; only the
arrival of a further event lets the loop observe quit and return. -/
theorem shutdown_leaves_thread_blocked :
    (∀ n : Nat, loopRun true (List.replicate n false) LoopState.inWait =
      LoopState.inWait) ∧
    loopRun true [true, false] LoopState.inWait = LoopState.returned := by
  constructor
  · intro n
    induction n with
    | zero => rfl
    | succ m ih =>
      rw [List.replicate_succ, loopRun, List.foldl_cons]
      exact ih
  · rfl

/-- C9: after startup the special key map holds exactly the four
navigation keysyms and the five mouse pseudo-codes, each mapped to its
fixed non-empty DisplayName; the embedding passes the map read-only to
every handler, matching the source where all later accesses are guarded
reads. -/
theorem specialKeyMap_startup_contents :
    specialKeyMap.lookup 0xff55 = some "PAGE UP" ∧
    specialKeyMap.lookup 0xff56 = some "PAGE DOWN" ∧
    specialKeyMap.lookup 0xff50 = some "HOME" ∧
    specialKeyMap.lookup 0xff57 = some "END" ∧
    specialKeyMap.lookup 1 = some "MOUSE LEFT CLICK" ∧
    specialKeyMap.lookup 2 = some "MOUSE MIDDLE CLICK" ∧
    specialKeyMap.lookup 3 = some "MOUSE RIGHT CLICK" ∧
    specialKeyMap.lookup 4 = some "MOUSE SCROLL UP" ∧
    specialKeyMap.lookup 5 = some "MOUSE SCROLL DOWN" ∧
    specialKeyMap.length = 9 ∧
    specialKeyMap.all (fun p => !p.2.isEmpty) = true := by decide

/-- Helper: a button code outside the special map makes the press handler
insert the fixed placeholder name. -/
theorem handleLinuxButtonPress_unmapped (b : Nat) (keys : Finset String)
    (h : specialKeyMap.lookup b = none) :
    handleLinuxButtonPress b keys = addSpecialKey "Unknown Mouse Button" keys := by
  unfold handleLinuxButtonPress
  rw [h]
  rfl

/-- Helper: a button code outside the special map makes the release
handler erase the fixed placeholder name. -/
theorem handleLinuxButtonRelease_unmapped (b : Nat) (keys : Finset String)
    (h : specialKeyMap.lookup b = none) :
    handleLinuxButtonRelease b keys =
      removeSpecialKey "Unknown Mouse Button" keys := by
  unfold handleLinuxButtonRelease
  rw [h]
  rfl

/-- C10: two distinct unmapped button codes both resolve to the shared
placeholder, so pressing both from the empty state yields a one-element
set, and a release of either code empties it again. -/
theorem unknownMouseButton_shared (b1 b2 : Nat) (_hb : b1 ≠ b2)
    (h1 : specialKeyMap.lookup b1 = none)
    (h2 : specialKeyMap.lookup b2 = none) :
    (handleLinuxButtonPress b2 (handleLinuxButtonPress b1 ∅).1).1 =
      {"Unknown Mouse Button"} ∧
    (handleLinuxButtonPress b2 (handleLinuxButtonPress b1 ∅).1).1.card = 1 ∧
    (handleLinuxButtonRelease b1
      (handleLinuxButtonPress b2 (handleLinuxButtonPress b1 ∅).1).1).1 = ∅ ∧
    (handleLinuxButtonRelease b2
      (handleLinuxButtonPress b2 (handleLinuxButtonPress b1 ∅).1).1).1 = ∅ := by
  rw [handleLinuxButtonPress_unmapped b1 ∅ h1,
    handleLinuxButtonPress_unmapped b2 _ h2,
    handleLinuxButtonRelease_unmapped b1 _ h1,
    handleLinuxButtonRelease_unmapped b2 _ h2]
  decide

/-- Witness for C10 at the unmapped button codes 8 and 9. -/
theorem unknownMouseButton_shared_witness :
    (8 ≠ 9) ∧ specialKeyMap.lookup 8 = none ∧ specialKeyMap.lookup 9 = none ∧
    (handleLinuxButtonPress 9 (handleLinuxButtonPress 8 ∅).1).1 =
      {"Unknown Mouse Button"} :=
  ⟨by decide, by decide, by decide,
   (unknownMouseButton_shared 8 9 (by decide) (by decide) (by decide)).1⟩

/-- C5: whenever updateKeyCombination delivers text it is the combination
string with every character uppercased, and that uppercasing is
idempotent, so applying it twice equals applying it once. -/
theorem delivered_text_uppercased :
    (∀ keys : Finset String,
      updateKeyCombination keys = none ∨
      updateKeyCombination keys = some (uppercaseOf (combinationOf keys))) ∧
    (∀ s : String, uppercaseOf (uppercaseOf s) = uppercaseOf s) := by
  constructor
  · intro keys
    by_cases h : keys = ∅
    · left
      rw [updateKeyCombination, if_pos h]
    · right
      rw [updateKeyCombination, if_neg h]
      rfl
  · exact uppercaseOf_idem

/-- C4: for a non-empty active set of non-empty DisplayNames the
combination string is the names joined by the separator in ascending
lexicographic order, and since the set abstraction forgets insertion
order, any insertion order of B, A, C yields exactly A + B + C. -/
theorem combination_sorted_join :
    (∀ keys : Finset String, keys.Nonempty → (∀ k ∈ keys, k ≠ "") →
      combinationOf keys = joinedBy " + " (keys.sort (· ≤ ·))) ∧
    (∀ l : List String, l.Perm ["B", "A", "C"] →
      combinationOf l.toFinset = "A + B + C") := by
  constructor
  · intro keys hne hk
    rw [combinationOf]
    cases hsl : keys.sort (· ≤ ·) with
    | nil =>
      exfalso
      obtain ⟨a, ha⟩ := hne
      have hmem : a ∈ keys.sort (· ≤ ·) := (Finset.mem_sort _).mpr ha
      rw [hsl] at hmem
      exact List.not_mem_nil a hmem
    | cons a t =>
      have ha : a ∈ keys := by
        have hmem : a ∈ keys.sort (· ≤ ·) := by
          rw [hsl]
          exact List.mem_cons_self a t
        exact (Finset.mem_sort _).mp hmem
      have ha2 : a ≠ "" := hk a ha
      have hca : combStep "" a = a := by
        rw [combStep, if_pos rfl]
        exact String.empty_append a
      rw [List.foldl_cons, hca, foldl_combStep_acc t a ha2,
        joinedBy_eq_tailJoined a t]
  · intro l hperm
    rw [List.toFinset_eq_of_perm l ["B", "A", "C"] hperm, combinationOf,
      finsetSortEq (["B", "A", "C"] : List String).toFinset ["A", "B", "C"]
        (by decide) (by decide)]
    decide

/-- Witness for C4 at the concrete set containing B, A and C, inserted
in two different orders. -/
theorem combination_sorted_join_witness :
    combinationOf ({"B", "A", "C"} : Finset String) =
      joinedBy " + " (({"B", "A", "C"} : Finset String).sort (· ≤ ·)) ∧
    combinationOf (["C", "A", "B"] : List String).toFinset = "A + B + C" :=
  ⟨combination_sorted_join.1 {"B", "A", "C"} (by decide) (by decide),
   combination_sorted_join.2 ["C", "A", "B"] (by decide)⟩
